import Mathlib

set_option maxHeartbeats 1000000

/-!
Shallow embedding of the split-flap display engine
(`src/public/js/split-flap.js`) and of the arrivals backend (`src/app.js`)
of the Subway-Split-Flap-Solari repository, together with proofs of the
behavioural properties of its specification.
-/

/- ********************************************************************* -/
/- DRUM ARRAYS (split-flap.js, sf.display.FullDrum/CharDrum/NumDrum/ImageDrum) -/

/-- The full character drum (`sf.display.FullDrum`): blank, letters, digits,
punctuation and the two directional glyphs, in source order. -/
def FullDrum : List Char :=
  [' ', 'A', 'B', 'C', 'D', 'E', 'F', 'G', 'H', 'I', 'J', 'K', 'L', 'M',
   'N', 'O', 'P', 'Q', 'R', 'S', 'T', 'U', 'V', 'W', 'X', 'Y', 'Z',
   '0', '1', '2', '3', '4', '5', '6', '7', '8', '9',
   '.', ',', '?', '!', '/', Char.ofNat 39, '+', '-', ':', '@', '#', '↑', '↓']

/-- The letters-only drum (`sf.display.CharDrum`): blank, letters and two
punctuation marks. -/
def CharDrum : List Char :=
  [' ', 'A', 'B', 'C', 'D', 'E', 'F', 'G', 'H', 'I', 'J', 'K', 'L', 'M',
   'N', 'O', 'P', 'Q', 'R', 'S', 'T', 'U', 'V', 'W', 'X', 'Y', 'Z', '.', ',']

/-- The digits-only drum (`sf.display.NumDrum`). -/
def NumDrum : List Char :=
  [' ', '0', '1', '2', '3', '4', '5', '6', '7', '8', '9', '.', ',']

/-- The image drum (`sf.display.ImageDrum`): intentionally empty in the
source file, meant to be overridden by plugins. -/
def ImageDrum : List Char := []

/- ********************************************************************* -/
/- HOUSEKEEPING (split-flap.js, Array.prototype.rotate and Array.indexOf) -/

/-- JavaScript `Array.prototype.indexOf`: the first index of `c` in `l`,
or `-1` when `c` does not occur. -/
def jsIndexOf : List Char → Char → Int
  | [], _ => -1
  | a :: rest, c =>
    if a = c then 0
    else if jsIndexOf rest c = -1 then -1 else jsIndexOf rest c + 1

/-- The JavaScript `%` operator (truncated remainder, sign of the dividend)
for a positive modulus; Lean's `%` on `Int` is the Euclidean remainder. -/
def jsRem (a b : Int) : Int :=
  if a < 0 then -((-a) % b) else a % b

/-- `Array.prototype.rotate(count)` from split-flap.js:
`unshift.apply(this, splice.call(this, count % len, len))`, i.e. the elements
from normalized index `count % len` onward are moved to the front. On an
empty array it is a no-op (`splice` with a `NaN` start removes nothing). -/
def jsRotate {α : Type} (l : List α) (count : Int) : List α :=
  if l.length = 0 then l
  else
    let r := jsRem count (l.length : Int)
    let start := (if r < 0 then (l.length : Int) + r else r).toNat
    l.drop start ++ l.take start

/- ********************************************************************* -/
/- sf.display.change: the rotation algorithm                              -/

/-- The step count computed by `sf.display.change`: the index of `c` in the
drum order, falling back to the index of the blank when `c` is missing
(`if (index === -1) index = values.indexOf(' ')`). -/
def changeIndex (values : List Char) (c : Char) : Int :=
  let index := jsIndexOf values c
  if index = -1 then jsIndexOf values ' ' else index

/-- The sequence of characters passed to `sf.display.show` by the loop
`for (let i = 0; i < index; i++) show(container, values[i + 1])` in
`sf.display.change`: one visual step per increment of the drum. -/
def changeSteps (values : List Char) (c : Char) : List Char :=
  (List.range (changeIndex values c).toNat).map (fun i => values.getD (i + 1) ' ')

/-- The drum order stored back on the element by `sf.display.change`
(`container.data('order', values.rotate(index))`). Its head is the
character now displayed by the slot. -/
def changeOrder (values : List Char) (c : Char) : List Char :=
  jsRotate values (changeIndex values c)

/- ********************************************************************* -/
/- sf.display.loadGroup: the text/numeric path                            -/

/-- `input.toUpperCase()` followed by `split('')` in `sf.display.loadGroup`,
for the ASCII characters this display uses. -/
def jsToUpperCase (s : String) : List Char :=
  s.data.map Char.toUpper

/-- The per-slot characters targeted by `sf.display.loadGroup` on a
text/numeric group with `strLen` display elements: the uppercased characters
of `input`, padded with spaces up to `strLen`
(`if (typeof characters[i] === 'undefined') characters[i] = ' '`) and then
trimmed to `strLen` (`characters.slice(0, strLen)`). -/
def loadGroupChars (input : String) (strLen : Nat) : List Char :=
  let characters := jsToUpperCase input
  (characters ++ List.replicate (strLen - characters.length) ' ').take strLen

/- ********************************************************************* -/
/- sf.display.loadRow: field resolution                                   -/

/-- A JavaScript value as stored in a record field. -/
inductive JsVal : Type
  | num (n : Int)
  | str (s : String)
  | boolean (b : Bool)
  | null
  | undefined
deriving DecidableEq

/-- JavaScript truthiness for the field values above (`data[c] ? ... : ...`):
the number 0, the empty string, `false`, `null` and `undefined` are falsy. -/
def jsTruthy : JsVal → Bool
  | .num n => decide (n ≠ 0)
  | .str s => decide (s ≠ "")
  | .boolean b => b
  | .null => false
  | .undefined => false

/-- JavaScript `.toString()` on the field values above. -/
def jsToString : JsVal → String
  | .num n => toString n
  | .str s => s
  | .boolean b => if b then "true" else "false"
  | .null => "null"
  | .undefined => "undefined"

/-- The string handed to `sf.display.loadGroup` for one group by
`sf.display.loadRow`: `const d = data[c] ? data[c] : ''` followed by
`d.toString()`, where `v` is the record's value at the group's field key. -/
def loadRowContent (v : JsVal) : String :=
  if jsTruthy v then jsToString v else ""

/- ********************************************************************* -/
/- sf.display.loadSequentially (the Sequencer) and sf.board.clearRow      -/

/-- The one action `sf.display.loadSequentially` performs on a row:
`loadRow` with that row's record, or `clearRow` when there is none. -/
inductive RowAction (α : Type) : Type
  | load (r : α)
  | clear
deriving DecidableEq

/-- The action the `loadSequentially` loop body performs for row `i`:
`if (input[i]) loadRow(input[i], rows[i]) else clearRow(rows[i])`
(the records are objects, hence truthy exactly when present). -/
def loadSeqAction {α : Type} (input : List α) (i : Nat) : RowAction α :=
  match input.get? i with
  | some r => RowAction.load r
  | none => RowAction.clear

/-- The recursive `loop()` of `sf.display.loadSequentially`: acts on row `i`,
then continues while `i + 1 < rows.length`; `remaining` counts the
iterations still to come after the current one. -/
def loadSeqLoop {α : Type} (input : List α) : Nat → Nat → List (RowAction α)
  | i, 0 => [loadSeqAction input i]
  | i, r + 1 => loadSeqAction input i :: loadSeqLoop input (i + 1) r

/-- The row actions of one `sf.display.loadSequentially(input, container)`
invocation over a board with `numRows` rows, in the order the rows are
processed. The loop body runs once even for an empty board (do-while shape),
hence the `numRows - 1` remaining count. -/
def loadSequentially {α : Type} (input : List α) (numRows : Nat) : List (RowAction α) :=
  loadSeqLoop input 0 (numRows - 1)

/- ********************************************************************* -/
/- sf.Items.update (the Pager)                                            -/

/-- `numResults` as computed by `sf.Items.update`:
`results.length <= maxResults ? results.length : maxResults`. -/
def numResultsOf (len maxResults : Nat) : Nat :=
  if len ≤ maxResults then len else maxResults

/-- `numPages = Math.ceil(numResults / numRows)` as computed by
`sf.Items.update`, for a positive `numRows`. -/
def numPagesOf (len maxResults numRows : Nat) : Nat :=
  (numResultsOf len maxResults + numRows - 1) / numRows

/-- The recursive `paginate()` of `sf.Items.update`: loads
`results.slice(i, i + numRows)`, advances `i`, and recurses while
`page < numPages`; `remaining` counts the iterations still to come after
the current one. -/
def paginateLoop {α : Type} (results : List α) (numRows : Nat) :
    Nat → Nat → List (List α)
  | i, 0 => [(results.drop i).take numRows]
  | i, r + 1 => (results.drop i).take numRows ::
      paginateLoop results numRows (i + numRows) r

/-- The pages loaded over one full page cycle of `sf.Items.update`: the
initial `results.slice(0, numRows)` load, then `paginate()` while
`page < numPages`. -/
def pagerPages {α : Type} (results : List α) (numRows maxResults : Nat) :
    List (List α) :=
  let numPages := numPagesOf results.length maxResults numRows
  if 1 < numPages then
    results.take numRows :: paginateLoop results numRows numRows (numPages - 2)
  else
    [results.take numRows]

/- ********************************************************************* -/
/- app.js: fetchAndWrite, get_stop_times and /api/arrivals                -/

/-- An `arrival_time` value as built by `get_stop_times` in app.js: a
number of minutes, or the literal string `'0'` pushed for trains arriving
now. -/
inductive ArrTime : Type
  | num (n : Int)
  | strZero
deriving DecidableEq

/-- One combined result record assembled by `fetchAndWrite` (only the
fields relevant to ordering are modelled; the others ride along in
`route_id`). -/
structure CombinedResult : Type where
  route_id : String
  arrival_time : ArrTime
deriving DecidableEq

/-- The ordering induced by the `combined_results.sort` comparator in
`fetchAndWrite`: `aa - bb` with a non-number `arrival_time` replaced by
`Number.POSITIVE_INFINITY` (and the `NaN` produced when both are infinite
treated as 0 by the sort, keeping such pairs in place). -/
def arrivalLe : ArrTime → ArrTime → Prop
  | .num x, .num y => x ≤ y
  | .num _, .strZero => True
  | .strZero, .num _ => False
  | .strZero, .strZero => True

instance : DecidableRel arrivalLe := fun a b =>
  match a, b with
  | .num x, .num y => inferInstanceAs (Decidable (x ≤ y))
  | .num _, .strZero => Decidable.isTrue trivial
  | .strZero, .num _ => Decidable.isFalse fun h => h
  | .strZero, .strZero => Decidable.isTrue trivial

/-- The comparator lifted to combined result records. -/
def combinedLe (a b : CombinedResult) : Prop :=
  arrivalLe a.arrival_time b.arrival_time

instance : DecidableRel combinedLe := fun a b =>
  inferInstanceAs (Decidable (arrivalLe a.arrival_time b.arrival_time))

/-- The sort performed by `fetchAndWrite` on `combined_results`:
JavaScript `Array.prototype.sort` is stable and, under a consistent
comparator, comparator-sorted; the unique such reordering is the stable
insertion sort by `combinedLe`. -/
def fetchAndWriteSort (l : List CombinedResult) : List CombinedResult :=
  List.insertionSort combinedLe l

/-- The `scheduled` value a record stands for, reading the zero-marker as
zero minutes. -/
def schedVal : ArrTime → Int
  | .num n => n
  | .strZero => 0

/-- The `arrival_time` built by `get_stop_times` from one stop time:
`arrival_time = Math.floor((departureTs - nowSeconds) / 60)`, pushed as a
number when positive, as the string `'0'` when zero, and skipped when
negative (times modelled in integer seconds). -/
def get_stop_times_entry (departureTs nowSeconds : Int) : Option ArrTime :=
  let seconds_to_leave := departureTs - nowSeconds
  let arrival_time := Int.ediv seconds_to_leave 60
  if 0 < arrival_time then some (ArrTime.num arrival_time)
  else if arrival_time = 0 then some ArrTime.strZero
  else none

/-- The record list served by `/api/arrivals`: the first
`Math.min(45, jsonData.length)` records of the sorted in-memory store, in
order. -/
def apiArrivals (l : List CombinedResult) : List CombinedResult :=
  l.take 45

/- ********************************************************************* -/
/- HELPER LEMMAS                                                          -/

theorem jsIndexOf_ge (v : List Char) (c : Char) : -1 ≤ jsIndexOf v c := by
  induction v with
  | nil => simp [jsIndexOf]
  | cons a rest ih =>
    simp only [jsIndexOf]
    split
    · omega
    · split
      · omega
      · omega

theorem jsIndexOf_lt_length (v : List Char) (c : Char) :
    jsIndexOf v c < (v.length : Int) := by
  induction v with
  | nil => simp [jsIndexOf]
  | cons a rest ih =>
    simp only [jsIndexOf, List.length_cons]
    split
    · omega
    · split
      · omega
      · omega

theorem jsIndexOf_spec (v : List Char) (c : Char) :
    ∀ i : Nat, jsIndexOf v c = (i : Int) → v.getD i ' ' = c := by
  induction v with
  | nil =>
    intro i h
    simp [jsIndexOf] at h
  | cons a rest ih =>
    intro i h
    simp only [jsIndexOf] at h
    by_cases hac : a = c
    · rw [if_pos hac] at h
      have hi : i = 0 := by omega
      subst hi
      simpa using hac
    · rw [if_neg hac] at h
      by_cases hrec : jsIndexOf rest c = -1
      · rw [if_pos hrec] at h
        omega
      · rw [if_neg hrec] at h
        have hge := jsIndexOf_ge rest c
        have h1 : 1 ≤ i := by omega
        have h2 : jsIndexOf rest c = ((i - 1 : Nat) : Int) := by omega
        have h3 := ih (i - 1) h2
        have hi : i = (i - 1) + 1 := by omega
        rw [hi, List.getD_cons_succ]
        exact h3

theorem jsIndexOf_of_not_mem {v : List Char} {c : Char} (h : c ∉ v) :
    jsIndexOf v c = -1 := by
  induction v with
  | nil => simp [jsIndexOf]
  | cons a rest ih =>
    simp only [List.mem_cons, not_or] at h
    have hac : ¬ a = c := fun hh => h.1 hh.symm
    simp [jsIndexOf, hac, ih h.2]

theorem jsIndexOf_nonneg_of_mem {v : List Char} {c : Char} (h : c ∈ v) :
    0 ≤ jsIndexOf v c := by
  induction v with
  | nil => simp at h
  | cons a rest ih =>
    simp only [jsIndexOf]
    by_cases hac : a = c
    · rw [if_pos hac]
    · rw [if_neg hac]
      have hc : c ∈ rest := by
        rcases List.mem_cons.mp h with h1 | h1
        · exact absurd h1.symm hac
        · exact h1
      have := ih hc
      split
      · omega
      · omega

theorem jsRotate_perm {α : Type} (l : List α) (count : Int) :
    (jsRotate l count).Perm l := by
  unfold jsRotate
  split
  · exact List.Perm.refl l
  · refine List.perm_append_comm.trans ?_
    rw [List.take_append_drop]

theorem jsRotate_coe_of_lt {α : Type} (l : List α) (i : Nat) (h : i < l.length) :
    jsRotate l (i : Int) = l.drop i ++ l.take i := by
  have hlen : ¬ l.length = 0 := by omega
  have hrem : jsRem (i : Int) (l.length : Int) = (i : Int) := by
    unfold jsRem
    rw [if_neg (by omega)]
    exact Int.emod_eq_of_lt (by omega) (by exact_mod_cast h)
  simp only [jsRotate, if_neg hlen, hrem]
  rw [if_neg (by omega)]
  simp

theorem changeIndex_of_found {values : List Char} {c : Char} {i : Nat}
    (h : jsIndexOf values c = (i : Int)) : changeIndex values c = (i : Int) := by
  unfold changeIndex
  rw [h, if_neg (by omega)]

theorem changeIndex_of_not_mem {values : List Char} {c : Char} (h : c ∉ values) :
    changeIndex values c = jsIndexOf values ' ' := by
  unfold changeIndex
  rw [jsIndexOf_of_not_mem h, if_pos rfl]

theorem head_drop_append {α : Type} (l : List α) (i : Nat) (d : α)
    (h : i < l.length) : (l.drop i ++ l.take i).head? = some (l.getD i d) := by
  rw [List.drop_eq_getElem_cons h, List.getD_eq_getElem l d h]
  rfl

theorem changeOrder_head (values : List Char) (c : Char) (hsp : ' ' ∈ values) :
    (changeOrder values c).head? = some (if c ∈ values then c else ' ') := by
  by_cases hc : c ∈ values
  · have h0 := jsIndexOf_nonneg_of_mem hc
    have hcoe : jsIndexOf values c = ((jsIndexOf values c).toNat : Int) :=
      (Int.toNat_of_nonneg h0).symm
    have hlt : (jsIndexOf values c).toNat < values.length := by
      have := jsIndexOf_lt_length values c
      omega
    have hspec := jsIndexOf_spec values c (jsIndexOf values c).toNat hcoe
    rw [if_pos hc]
    unfold changeOrder
    rw [changeIndex_of_found hcoe, jsRotate_coe_of_lt values _ hlt,
      head_drop_append values _ ' ' hlt, hspec]
  · have h0 := jsIndexOf_nonneg_of_mem hsp
    have hcoe : jsIndexOf values ' ' = ((jsIndexOf values ' ').toNat : Int) :=
      (Int.toNat_of_nonneg h0).symm
    have hlt : (jsIndexOf values ' ').toNat < values.length := by
      have := jsIndexOf_lt_length values ' '
      omega
    have hspec := jsIndexOf_spec values ' ' (jsIndexOf values ' ').toNat hcoe
    rw [if_neg hc]
    unfold changeOrder
    rw [changeIndex_of_not_mem hc, hcoe, jsRotate_coe_of_lt values _ hlt,
      head_drop_append values _ ' ' hlt, hspec]

theorem mem_changeOrder {values : List Char} {c x : Char} :
    x ∈ changeOrder values c ↔ x ∈ values :=
  (jsRotate_perm values (changeIndex values c)).mem_iff

theorem pad_take_eq (l : List Char) (w : Nat) :
    (l ++ List.replicate (w - l.length) ' ').take w
      = (List.range w).map (fun i => l.getD i ' ') := by
  induction w generalizing l with
  | zero => simp
  | succ n ih =>
    cases l with
    | nil =>
      have hf : (fun i => ([] : List Char).getD i ' ') = (fun _ : Nat => ' ') := by
        funext i
        simp [List.getD]
      simp only [List.nil_append, List.length_nil, Nat.sub_zero,
        List.take_replicate, Nat.min_self, hf, List.map_const', List.length_range]
    | cons a t =>
      have hsub : n + 1 - (a :: t).length = n - t.length := by
        simp only [List.length_cons]
        omega
      rw [hsub, List.cons_append, List.take_succ_cons, ih t,
        List.range_succ_eq_map]
      simp [Function.comp, List.getD_cons_succ, List.getD_cons_zero]

theorem loadGroupChars_eq (input : String) (w : Nat) :
    loadGroupChars input w
      = (List.range w).map (fun i => (jsToUpperCase input).getD i ' ') :=
  pad_take_eq (jsToUpperCase input) w

theorem loadSeqLoop_eq {α : Type} (input : List α) (rem : Nat) :
    ∀ i : Nat, loadSeqLoop input i rem
      = (List.range' i (rem + 1)).map (loadSeqAction input) := by
  induction rem with
  | zero =>
    intro i
    simp [loadSeqLoop, List.range'_one]
  | succ r ih =>
    intro i
    rw [List.range'_succ]
    simp [loadSeqLoop, ih (i + 1)]

theorem loadSequentially_eq {α : Type} (input : List α) (numRows : Nat)
    (h : 0 < numRows) :
    loadSequentially input numRows
      = (List.range numRows).map (loadSeqAction input) := by
  unfold loadSequentially
  rw [loadSeqLoop_eq input (numRows - 1) 0]
  have hn : numRows - 1 + 1 = numRows := by omega
  rw [hn, List.range_eq_range' numRows]

theorem paginateLoop_eq {α : Type} (results : List α) (R : Nat) (rem : Nat) :
    ∀ i : Nat, paginateLoop results R i rem
      = (List.range (rem + 1)).map (fun k => (results.drop (i + k * R)).take R) := by
  induction rem with
  | zero =>
    intro i
    rw [show List.range 1 = [0] from rfl]
    simp [paginateLoop]
  | succ r ih =>
    intro i
    have hf : ((fun k => (results.drop (i + k * R)).take R) ∘ Nat.succ)
        = (fun k => (results.drop (i + R + k * R)).take R) := by
      funext k
      have harith : i + (k + 1) * R = i + R + k * R := by ring
      simp [Function.comp, harith]
    rw [List.range_succ_eq_map]
    simp only [paginateLoop, ih (i + R), List.map_cons, List.map_map,
      Nat.zero_mul, Nat.add_zero, hf]

theorem pagerPages_eq {α : Type} (results : List α) (R M : Nat) :
    pagerPages results R M
      = (List.range (max (numPagesOf results.length M R) 1)).map
          (fun p => (results.drop (p * R)).take R) := by
  unfold pagerPages
  by_cases h : 1 < numPagesOf results.length M R
  · rw [if_pos h, paginateLoop_eq results R _ R]
    obtain ⟨m, hm⟩ : ∃ m, numPagesOf results.length M R = m + 2 :=
      ⟨numPagesOf results.length M R - 2, by omega⟩
    rw [hm]
    have h2 : m + 2 - 2 + 1 = m + 1 := by omega
    have h3 : max (m + 2) 1 = m + 2 := by omega
    rw [h2, h3]
    have hf : ((fun p => (results.drop (p * R)).take R) ∘ Nat.succ)
        = (fun k => (results.drop (R + k * R)).take R) := by
      funext k
      have harith : (k + 1) * R = R + k * R := by ring
      simp [Function.comp, harith]
    conv_rhs => rw [List.range_succ_eq_map]
    simp only [List.map_cons, List.map_map, Nat.zero_mul, List.drop_zero, hf]
  · rw [if_neg h]
    have hmax : max (numPagesOf results.length M R) 1 = 1 := by omega
    rw [hmax]
    rw [show List.range 1 = [0] from rfl]
    simp

theorem flatten_slices {α : Type} (results : List α) (R : Nat) (P : Nat) :
    ((List.range P).map (fun p => (results.drop (p * R)).take R)).flatten
      = results.take (P * R) := by
  induction P with
  | zero => simp
  | succ n ih =>
    rw [List.range_succ, List.map_append, List.flatten_append, ih]
    have harith : (n + 1) * R = n * R + R := by ring
    rw [harith, List.take_add]
    simp

instance : IsTotal CombinedResult combinedLe where
  total a b := by
    unfold combinedLe
    cases ha : a.arrival_time <;> cases hb : b.arrival_time <;>
      simp [arrivalLe] <;> omega

instance : IsTrans CombinedResult combinedLe where
  trans a b c hab hbc := by
    unfold combinedLe at hab hbc ⊢
    cases ha : a.arrival_time <;> cases hb : b.arrival_time <;>
      cases hc : c.arrival_time <;> simp_all [arrivalLe] <;> omega

theorem fetchAndWriteSort_perm (l : List CombinedResult) :
    (fetchAndWriteSort l).Perm l :=
  List.perm_insertionSort combinedLe l

theorem fetchAndWriteSort_sorted (l : List CombinedResult) :
    List.Sorted combinedLe (fetchAndWriteSort l) :=
  List.sorted_insertionSort combinedLe l

theorem sorted_take {l : List CombinedResult} (n : Nat)
    (h : List.Sorted combinedLe l) : List.Sorted combinedLe (l.take n) :=
  List.Pairwise.sublist (List.take_sublist n l) h

theorem loadGroupChars_empty (w : Nat) :
    loadGroupChars "" w = List.replicate w ' ' := by
  rw [loadGroupChars_eq]
  have hf : (fun i => (jsToUpperCase "").getD i ' ') = (fun _ : Nat => ' ') := by
    funext i
    have hnil : jsToUpperCase "" = [] := rfl
    rw [hnil]
    simp [List.getD]
  rw [hf, List.map_const', List.length_range]

theorem loadGroupChars_blank (w : Nat) :
    loadGroupChars " " w = List.replicate w ' ' := by
  rw [loadGroupChars_eq]
  have hf : (fun i => (jsToUpperCase " ").getD i ' ') = (fun _ : Nat => ' ') := by
    funext i
    have hsp : jsToUpperCase " " = [' '] := by decide
    rw [hsp]
    cases i with
    | zero => simp
    | succ n => simp [List.getD_cons_succ, List.getD]
  rw [hf, List.map_const', List.length_range]

theorem changeOrder_blank_head {order : List Char} (hsp : ' ' ∈ order) :
    (changeOrder order ' ').head? = some ' ' := by
  have h := changeOrder_head order ' ' hsp
  simpa using h

/- ********************************************************************* -/
/- CLAIM THEOREMS                                                         -/

/-- C1: when `sf.display.change` is invoked on a slot whose drum order
`values` has the target character `c` at index `target` (index 0 being the
currently displayed character), it performs exactly `target` visual
show-steps, each advancing one alphabet position (step `j` shows
`values[j + 1]`), and the slot settles on `c` (the head of the rotated
stored order); in particular `target = 0` executes zero steps and queues
no animation. -/
theorem change_performs_exactly_target_steps (values : List Char) (c : Char)
    (target : Nat) (h : jsIndexOf values c = (target : Int)) :
    changeSteps values c
        = (List.range target).map (fun j => values.getD (j + 1) ' ')
      ∧ (changeSteps values c).length = target
      ∧ (changeOrder values c).head? = some c
      ∧ (target = 0 → changeSteps values c = []) := by
  have hidx : changeIndex values c = (target : Int) := changeIndex_of_found h
  have hsteps : changeSteps values c
      = (List.range target).map (fun j => values.getD (j + 1) ' ') := by
    unfold changeSteps
    rw [hidx]
    simp
  refine ⟨hsteps, ?_, ?_, ?_⟩
  · rw [hsteps]
    simp
  · have hlt : target < values.length := by
      have := jsIndexOf_lt_length values c
      omega
    have hget := jsIndexOf_spec values c target h
    unfold changeOrder
    rw [hidx, jsRotate_coe_of_lt values target hlt,
      head_drop_append values target ' ' hlt, hget]
  · intro ht
    rw [hsteps, ht]
    simp

/-- Witness for C1: on the full drum the character B sits at index 2, and
the rotation performs exactly two steps and settles on B. -/
theorem change_performs_exactly_target_steps_witness :
    jsIndexOf FullDrum 'B' = (2 : Int)
      ∧ (changeSteps FullDrum 'B'
            = (List.range 2).map (fun j => FullDrum.getD (j + 1) ' ')
          ∧ (changeSteps FullDrum 'B').length = 2
          ∧ (changeOrder FullDrum 'B').head? = some 'B'
          ∧ (2 = 0 → changeSteps FullDrum 'B' = [])) :=
  ⟨by decide, change_performs_exactly_target_steps FullDrum 'B' 2 (by decide)⟩

/-- C5: loading a text/numeric group of width `w` targets exactly `w`
per-slot characters: the uppercased characters of the input, right-padded
with blanks when the input is shorter and truncated to the first `w`
characters when longer; width 5 with "B" gives B followed by four blanks,
and width 3 with "HELLO" gives H, E, L. -/
theorem loadGroup_pads_and_truncates (input : String) (w : Nat) :
    (loadGroupChars input w).length = w
      ∧ loadGroupChars input w
          = (List.range w).map (fun i => (jsToUpperCase input).getD i ' ')
      ∧ loadGroupChars "B" 5 = ['B', ' ', ' ', ' ', ' ']
      ∧ loadGroupChars "HELLO" 3 = ['H', 'E', 'L'] := by
  refine ⟨?_, loadGroupChars_eq input w, by decide, by decide⟩
  rw [loadGroupChars_eq]
  simp

/-- C7 counterexample: the claim fails for the image drum kind — the
`sf.display.ImageDrum` alphabet in the source is empty, so it does not
contain exactly one blank token. -/
theorem drum_blank_invariant_counterexample :
    ¬ (ImageDrum.count ' ' = 1) := by decide

/-- C7 amended: the full, character and numeric drum alphabets each contain
exactly one blank token, located at index 0 (the default character and the
fallback for unknown characters); the image drum as defined in the source
is empty, to be overridden by plugins. -/
theorem drum_blank_invariant_amended :
    FullDrum.count ' ' = 1 ∧ CharDrum.count ' ' = 1 ∧ NumDrum.count ' ' = 1
      ∧ FullDrum.head? = some ' ' ∧ CharDrum.head? = some ' '
      ∧ NumDrum.head? = some ' '
      ∧ ImageDrum = [] := by decide

/-- C6 counterexample: for the image group kind with the source's (empty)
image drum, a character absent from the drum does not resolve the slot to
the blank token — the rotation leaves the empty order unchanged and its
head is not the blank. -/
theorem unknown_char_blank_counterexample :
    ¬ ((changeOrder ImageDrum 'Q').head? = some ' ') := by decide

/-- C6 amended: group loading never throws for any kind (the rotation is a
total function), and for every slot whose drum contains the blank token
(the full, character and numeric kinds) an unknown target character
resolves the slot to the blank token; the default image drum is empty, so
there an unknown character performs no steps and leaves the slot unchanged
instead of resolving to blank. -/
theorem unknown_char_resolves_to_blank (values : List Char) (c : Char)
    (hsp : ' ' ∈ values) (hc : c ∉ values) :
    (changeOrder values c).head? = some ' '
      ∧ changeSteps values c
          = (List.range (jsIndexOf values ' ').toNat).map
              (fun i => values.getD (i + 1) ' ')
      ∧ changeOrder ImageDrum c = ImageDrum
      ∧ changeSteps ImageDrum c = [] := by
  refine ⟨?_, ?_, rfl, rfl⟩
  · have h := changeOrder_head values c hsp
    rwa [if_neg hc] at h
  · unfold changeSteps
    rw [changeIndex_of_not_mem hc]

/-- Witness for C6 amended: the digit 3 is not on the character drum and
resolves to the blank at the head of the rotated order. -/
theorem unknown_char_resolves_to_blank_witness :
    ' ' ∈ CharDrum ∧ '3' ∉ CharDrum
      ∧ ((changeOrder CharDrum '3').head? = some ' '
          ∧ changeSteps CharDrum '3'
              = (List.range (jsIndexOf CharDrum ' ').toNat).map
                  (fun i => CharDrum.getD (i + 1) ' ')
          ∧ changeOrder ImageDrum '3' = ImageDrum
          ∧ changeSteps ImageDrum '3' = []) :=
  ⟨by decide, by decide,
    unknown_char_resolves_to_blank CharDrum '3' (by decide) (by decide)⟩

/-- C8: after a rotation to the character `c` found at index `target`, the
slot's stored alphabet is the original left-rotated by `target` positions,
so index 0 is the newly displayed character; consequently clearing the slot
to blank and reloading the same character reproduces exactly the same final
slot content as the original load. -/
theorem change_rotates_and_roundtrips (values : List Char) (c : Char)
    (target : Nat) (hsp : ' ' ∈ values)
    (h : jsIndexOf values c = (target : Int)) :
    changeOrder values c = values.drop target ++ values.take target
      ∧ (changeOrder values c).head? = some c
      ∧ (changeOrder (changeOrder (changeOrder values c) ' ') c).head?
          = (changeOrder values c).head? := by
  have hidx : changeIndex values c = (target : Int) := changeIndex_of_found h
  have hlt : target < values.length := by
    have := jsIndexOf_lt_length values c
    omega
  have hget := jsIndexOf_spec values c target h
  have hrot : changeOrder values c = values.drop target ++ values.take target := by
    unfold changeOrder
    rw [hidx, jsRotate_coe_of_lt values target hlt]
  have hcv : c ∈ values := by
    have h1 := List.getD_eq_getElem values ' ' hlt
    rw [h1] at hget
    exact hget ▸ List.getElem_mem hlt
  refine ⟨hrot, ?_, ?_⟩
  · rw [hrot, head_drop_append values target ' ' hlt, hget]
  · have hsp1 : ' ' ∈ changeOrder values c := mem_changeOrder.mpr hsp
    have hsp2 : ' ' ∈ changeOrder (changeOrder values c) ' ' :=
      mem_changeOrder.mpr hsp1
    have hc2 : c ∈ changeOrder (changeOrder values c) ' ' :=
      mem_changeOrder.mpr (mem_changeOrder.mpr hcv)
    rw [changeOrder_head _ c hsp2, if_pos hc2,
      changeOrder_head values c hsp, if_pos hcv]

/-- Witness for C8: on the character drum, C sits at index 3; the stored
alphabet comes back rotated by 3 and the clear-then-reload round trip
reproduces the same displayed character. -/
theorem change_rotates_and_roundtrips_witness :
    ' ' ∈ CharDrum ∧ jsIndexOf CharDrum 'C' = (3 : Int)
      ∧ (changeOrder CharDrum 'C' = CharDrum.drop 3 ++ CharDrum.take 3
          ∧ (changeOrder CharDrum 'C').head? = some 'C'
          ∧ (changeOrder (changeOrder (changeOrder CharDrum 'C') ' ') 'C').head?
              = (changeOrder CharDrum 'C').head?) :=
  ⟨by decide, by decide,
    change_rotates_and_roundtrips CharDrum 'C' 3 (by decide) (by decide)⟩

/-- C10: `sf.display.loadRow` substitutes the empty string not only for a
missing field but for every falsy field value — the number 0, the empty
string, false, null — so a record whose field value is the number 0 loads
the corresponding group with the empty string and renders all-blank rather
than displaying the digit 0. -/
theorem loadRow_blanks_falsy_fields (v : JsVal) (w : Nat)
    (h : jsTruthy v = false) :
    loadRowContent v = ""
      ∧ loadRowContent (JsVal.num 0) = ""
      ∧ loadRowContent (JsVal.num 0) ≠ "0"
      ∧ jsTruthy (JsVal.num 0) = false
      ∧ jsTruthy (JsVal.str "") = false
      ∧ jsTruthy (JsVal.boolean false) = false
      ∧ jsTruthy JsVal.null = false
      ∧ loadGroupChars (loadRowContent (JsVal.num 0)) w
          = List.replicate w ' ' := by
  refine ⟨?_, by decide, by decide, by decide, by decide, by decide,
    by decide, ?_⟩
  · unfold loadRowContent
    rw [h]
    simp
  · have h0 : loadRowContent (JsVal.num 0) = "" := by decide
    rw [h0, loadGroupChars_empty]

/-- Witness for C10: the field value 0 is falsy and a width-3 group loads
as three blanks. -/
theorem loadRow_blanks_falsy_fields_witness :
    jsTruthy (JsVal.num 0) = false
      ∧ (loadRowContent (JsVal.num 0) = ""
          ∧ loadRowContent (JsVal.num 0) = ""
          ∧ loadRowContent (JsVal.num 0) ≠ "0"
          ∧ jsTruthy (JsVal.num 0) = false
          ∧ jsTruthy (JsVal.str "") = false
          ∧ jsTruthy (JsVal.boolean false) = false
          ∧ jsTruthy JsVal.null = false
          ∧ loadGroupChars (loadRowContent (JsVal.num 0)) 3
              = List.replicate 3 ' ') :=
  ⟨by decide, loadRow_blanks_falsy_fields (JsVal.num 0) 3 (by decide)⟩

/-- C3: one Sequencer invocation processes the board's rows in strictly
increasing index order 0..numRows-1, performing exactly one action per row —
loadRow with records[i] when present, otherwise clearRow — so no row is
skipped or acted on twice; on a 5-row board with 3 records, rows 3 and 4
get the clear action, which sets every slot of a row (whose drum holds the
blank) to the blank state. -/
theorem loadSequentially_one_action_per_row {α : Type} (input : List α)
    (numRows : Nat) (r1 r2 r3 : α) (w : Nat) (order : List Char)
    (h : 0 < numRows) (horder : ' ' ∈ order) :
    loadSequentially input numRows
        = (List.range numRows).map (loadSeqAction input)
      ∧ (loadSequentially input numRows).length = numRows
      ∧ loadSequentially [r1, r2, r3] 5
          = [RowAction.load r1, RowAction.load r2, RowAction.load r3,
             RowAction.clear, RowAction.clear]
      ∧ loadGroupChars " " w = List.replicate w ' '
      ∧ (changeOrder order ' ').head? = some ' ' := by
  refine ⟨loadSequentially_eq input numRows h, ?_, rfl,
    loadGroupChars_blank w, changeOrder_blank_head horder⟩
  rw [loadSequentially_eq input numRows h]
  simp

/-- Witness for C3: a 5-row board and 3 numeric records, with the numeric
drum as slot order. -/
theorem loadSequentially_one_action_per_row_witness :
    0 < 5 ∧ ' ' ∈ NumDrum
      ∧ (loadSequentially [7, 8, 9] 5
            = (List.range 5).map (loadSeqAction [7, 8, 9])
          ∧ (loadSequentially ([7, 8, 9] : List Nat) 5).length = 5
          ∧ loadSequentially [(1 : Nat), 2, 3] 5
              = [RowAction.load 1, RowAction.load 2, RowAction.load 3,
                 RowAction.clear, RowAction.clear]
          ∧ loadGroupChars " " 4 = List.replicate 4 ' '
          ∧ (changeOrder NumDrum ' ').head? = some ' ') :=
  ⟨by decide, by decide,
    loadSequentially_one_action_per_row [7, 8, 9] 5 1 2 3 4 NumDrum
      (by decide) (by decide)⟩

/-- C4: on a fetched record list the Pager computes
numResults = min(length, maxResults) and numPages = ceil(numResults/numRows)
(characterized by the two inequalities), and page p is the contiguous slice
[p*numRows, (p+1)*numRows) of the record list; for 3 records with numRows 2
and maxResults 3 this yields exactly the two pages [r0, r1] and [r2], the
second page leaving its remaining row to be cleared by the Sequencer. -/
theorem items_update_pagination {α : Type} (results : List α)
    (R M : Nat) (r0 r1 r2 : α) (hR : 0 < R) :
    numResultsOf results.length M = min results.length M
      ∧ numResultsOf results.length M ≤ numPagesOf results.length M R * R
      ∧ numPagesOf results.length M R * R < numResultsOf results.length M + R
      ∧ pagerPages results R M
          = (List.range (max (numPagesOf results.length M R) 1)).map
              (fun p => (results.drop (p * R)).take R)
      ∧ numPagesOf 3 3 2 = 2
      ∧ pagerPages [r0, r1, r2] 2 3 = [[r0, r1], [r2]]
      ∧ loadSequentially [r2] 2 = [RowAction.load r2, RowAction.clear] := by
  refine ⟨?_, ?_, ?_, pagerPages_eq results R M, by decide, ?_, rfl⟩
  · unfold numResultsOf
    exact Nat.min_def.symm
  · unfold numPagesOf
    generalize numResultsOf results.length M = n
    rcases Nat.eq_zero_or_pos n with h0 | h0
    · simp [h0]
    · have h1 : n + R - 1 = (n - 1) + R := by omega
      rw [h1, Nat.add_div_right _ hR, Nat.add_mul, Nat.one_mul]
      have h2 := Nat.div_add_mod (n - 1) R
      have h3 : (n - 1) % R < R := Nat.mod_lt _ hR
      have h4 : R * ((n - 1) / R) = ((n - 1) / R) * R := Nat.mul_comm _ _
      omega
  · unfold numPagesOf
    generalize numResultsOf results.length M = n
    have h1 : ((n + R - 1) / R) * R ≤ n + R - 1 := Nat.div_mul_le_self _ _
    omega
  · rw [pagerPages_eq]
    have hl : ([r0, r1, r2] : List α).length = 3 := rfl
    rw [hl, show max (numPagesOf 3 3 2) 1 = 2 from by decide,
      show List.range 2 = [0, 1] from by decide]
    rfl

/-- Witness for C4: four abstract records, numRows 2, maxResults 3. -/
theorem items_update_pagination_witness :
    0 < 2
      ∧ (numResultsOf ([10, 20, 30, 40] : List Nat).length 3
            = min ([10, 20, 30, 40] : List Nat).length 3
          ∧ numResultsOf ([10, 20, 30, 40] : List Nat).length 3
              ≤ numPagesOf ([10, 20, 30, 40] : List Nat).length 3 2 * 2
          ∧ numPagesOf ([10, 20, 30, 40] : List Nat).length 3 2 * 2
              < numResultsOf ([10, 20, 30, 40] : List Nat).length 3 + 2
          ∧ pagerPages ([10, 20, 30, 40] : List Nat) 2 3
              = (List.range
                  (max (numPagesOf ([10, 20, 30, 40] : List Nat).length 3 2) 1)).map
                  (fun p => (([10, 20, 30, 40] : List Nat).drop (p * 2)).take 2)
          ∧ numPagesOf 3 3 2 = 2
          ∧ pagerPages [(5 : Nat), 6, 7] 2 3 = [[5, 6], [7]]
          ∧ loadSequentially [(7 : Nat)] 2 = [RowAction.load 7, RowAction.clear]) :=
  ⟨by decide, items_update_pagination [10, 20, 30, 40] 2 3 5 6 7 (by decide)⟩

/-- C2 counterexample: with the fetched list [0,1,2,3] (records named by
their index), maxResults 3 and numRows 2, the page cycle loads the record
at index 3 even though 3 ≥ maxResults, and displays 4 ≠ min(4,3) records in
total — the last page slices the untruncated result list. -/
theorem items_update_cap_counterexample :
    (3 : Nat) ∈ (pagerPages ([0, 1, 2, 3] : List Nat) 2 3).flatten
      ∧ (pagerPages ([0, 1, 2, 3] : List Nat) 2 3).flatten.length
          ≠ min 4 3 := by
  decide

/-- C2 amended: across one full page cycle the board never shows more than
numRows records at once (every loaded page has at most numRows records),
and the records displayed over the cycle are exactly the first
P * numRows entries of the fetched list, where P = max(numPages, 1) — a
total of min(length, P * numRows) records. This equals
numResults = min(length, maxResults) when the list is short or numRows
divides numResults, but records with index in [maxResults, P * numRows)
are also shown, because the pages slice the untruncated list. -/
theorem items_update_page_cycle {α : Type} (results : List α) (R M : Nat)
    (pg : List α) (hR : 0 < R) (hpg : pg ∈ pagerPages results R M) :
    pg.length ≤ R
      ∧ (pagerPages results R M).flatten
          = results.take (max (numPagesOf results.length M R) 1 * R)
      ∧ (pagerPages results R M).flatten.length
          = min results.length (max (numPagesOf results.length M R) 1 * R) := by
  refine ⟨?_, ?_, ?_⟩
  · rw [pagerPages_eq] at hpg
    obtain ⟨p, hp, hpe⟩ := List.mem_map.mp hpg
    rw [← hpe, List.length_take]
    exact min_le_left _ _
  · rw [pagerPages_eq, flatten_slices]
  · rw [pagerPages_eq, flatten_slices, List.length_take]
    exact Nat.min_comm _ _

/-- Witness for C2 amended: the first page of the counterexample cycle. -/
theorem items_update_page_cycle_witness :
    0 < 2 ∧ [0, 1] ∈ pagerPages ([0, 1, 2, 3] : List Nat) 2 3
      ∧ (([0, 1] : List Nat).length ≤ 2
          ∧ (pagerPages ([0, 1, 2, 3] : List Nat) 2 3).flatten
              = ([0, 1, 2, 3] : List Nat).take
                  (max (numPagesOf ([0, 1, 2, 3] : List Nat).length 3 2) 1 * 2)
          ∧ (pagerPages ([0, 1, 2, 3] : List Nat) 2 3).flatten.length
              = min ([0, 1, 2, 3] : List Nat).length
                  (max (numPagesOf ([0, 1, 2, 3] : List Nat).length 3 2) 1 * 2)) :=
  ⟨by decide, by decide,
    items_update_page_cycle [0, 1, 2, 3] 2 3 [0, 1] (by decide) (by decide)⟩

/-- C9 counterexample: `fetchAndWrite` leaves a 5-minute record before an
arriving-now record (the string zero-marker compares as +Infinity), so the
served list is not sorted by ascending scheduled value. -/
theorem api_sorted_counterexample :
    fetchAndWriteSort
        [⟨"6", ArrTime.num 5⟩, ⟨"A", ArrTime.strZero⟩]
        = [⟨"6", ArrTime.num 5⟩, ⟨"A", ArrTime.strZero⟩]
      ∧ ¬ List.Pairwise
          (fun a b : CombinedResult =>
            schedVal a.arrival_time ≤ schedVal b.arrival_time)
          (fetchAndWriteSort
            [⟨"6", ArrTime.num 5⟩, ⟨"A", ArrTime.strZero⟩]) := by
  constructor
  · decide
  · decide

/-- C9 amended: the list `fetchAndWrite` stores (and `/api/arrivals`
serves, taking the first 45 in order) is a permutation of the fetched
records sorted by the comparator order: ascending scheduled among numeric
records, with zero-marker (arriving now) records placed after all numeric
ones rather than first; and every scheduled value built by
`get_stop_times` is a positive number of minutes or the zero-marker. -/
theorem api_sorted_amended (l : List CombinedResult) (d now : Int)
    (e : ArrTime) (he : get_stop_times_entry d now = some e) :
    (fetchAndWriteSort l).Perm l
      ∧ List.Sorted combinedLe (fetchAndWriteSort l)
      ∧ List.Sorted combinedLe (apiArrivals (fetchAndWriteSort l))
      ∧ ((∃ k : Int, 0 < k ∧ e = ArrTime.num k) ∨ e = ArrTime.strZero) := by
  refine ⟨fetchAndWriteSort_perm l, fetchAndWriteSort_sorted l,
    sorted_take 45 (fetchAndWriteSort_sorted l), ?_⟩
  simp only [get_stop_times_entry] at he
  split at he
  · rename_i h1
    cases he
    exact Or.inl ⟨_, h1, rfl⟩
  · split at he
    · cases he
      exact Or.inr rfl
    · exact Option.noConfusion he

/-- Witness for C9 amended: a train departing in 120 seconds yields the
scheduled value 2 minutes. -/
theorem api_sorted_amended_witness :
    get_stop_times_entry 120 0 = some (ArrTime.num 2)
      ∧ ((fetchAndWriteSort
            [⟨"A", ArrTime.num 3⟩, ⟨"B", ArrTime.num 1⟩]).Perm
            [⟨"A", ArrTime.num 3⟩, ⟨"B", ArrTime.num 1⟩]
          ∧ List.Sorted combinedLe
              (fetchAndWriteSort [⟨"A", ArrTime.num 3⟩, ⟨"B", ArrTime.num 1⟩])
          ∧ List.Sorted combinedLe
              (apiArrivals
                (fetchAndWriteSort [⟨"A", ArrTime.num 3⟩, ⟨"B", ArrTime.num 1⟩]))
          ∧ ((∃ k : Int, 0 < k ∧ ArrTime.num 2 = ArrTime.num k)
              ∨ ArrTime.num 2 = ArrTime.strZero)) :=
  ⟨by decide,
    api_sorted_amended [⟨"A", ArrTime.num 3⟩, ⟨"B", ArrTime.num 1⟩] 120 0
      (ArrTime.num 2) (by decide)⟩
